import Mathlib

/-!
Verification of the magnus-core graph execution engine.

Shallow embedding of `src/magnus/executor.py`, `src/magnus/nodes.py` and
`src/magnus/pipeline.py`.  Pure functions of the source become Lean
functions; the stateful executor becomes explicit state passing over a
`RunState`; fallible code returns `Except` or `Option`.  The Run Log Store,
Catalog and Secrets providers are external collaborators of the core (spec
paragraph 1); the store is modelled as an association list of step logs plus the
status of the enclosing branch/run log.  The node model covers the leaf
fragment (task, success, fail) that the traversal claims are about; the
composite join/reconcile logic is modelled separately as a pure function
over the child branch statuses.
-/

namespace Magnus

/-- Status constants. Modelled from the spec: `defaults.py` is not under
`src/`; paragraph 3 of the spec fixes the status enumeration
{PROCESSING, SUCCESS, FAIL, TRIGGERED}. -/
inductive Status
  | SUCCESS
  | FAIL
  | PROCESSING
  | TRIGGERED
deriving DecidableEq, Repr

/-- Attempt Log (spec paragraph 3; `datastore` provider contract).  The field keeps
the source's spelling `attempt_numner` from the write site in
`BaseExecutor.execute_node`. -/
structure AttemptLog where
  attempt_numner : Nat
  status : Status
deriving DecidableEq, Repr

/-- Node variants of the leaf fragment of `src/magnus/nodes.py` used by the
traversal (TaskNode, SuccessNode, FailNode). -/
inductive NodeType
  | task
  | success
  | fail
deriving DecidableEq, Repr

/-- Step Log (spec paragraph 3).  `name` is the step-log name the store keys by;
only the fields the claims mention are carried. -/
structure StepLog where
  name : String
  step_type : NodeType
  status : Status
  mock : Bool
  message : String
  attempts : List AttemptLog
deriving DecidableEq, Repr

/-- A leaf node of `src/magnus/nodes.py`.  `next` and `on_failure` model the
optional config keys (`get_next_node`, `get_on_failure_node`); `retry`
models `config['retry']` after `int` conversion; `cmdFails i` is the
outcome oracle of running `config.command` on the i-th attempt (True means
the command raises / exits non-zero). -/
structure Node where
  name : String
  node_type : NodeType
  next : Option String
  on_failure : Option String
  retry : Option Int
  cmdFails : Nat → Bool

/-- The mutable state the executor threads through a single branch:
the step logs held by the Run Log Store, the enclosing branch/run log
status, and the previous run log pointer (`BaseExecutor.previous_run_log`),
abstracted to its `search_step_by_internal_name` lookup. -/
structure RunState where
  steps : List (String × StepLog)
  runStatus : Status
  prev : Option (String → Option Status)

/-- Store write: `run_log_store.add_step_log`, keyed by the step log name
(overwrites an existing entry). -/
def setStep : List (String × StepLog) → StepLog → List (String × StepLog)
  | [], sl => [(sl.name, sl)]
  | (k, v) :: rest, sl =>
      if k = sl.name then (k, sl) :: rest else (k, v) :: setStep rest sl

/-- Store read: `run_log_store.get_step_log` (None models the
`StepLogNotFoundError` raise). -/
def lookupStep : List (String × StepLog) → String → Option StepLog
  | [], _ => none
  | (k, v) :: rest, name => if k = name then some v else lookupStep rest name

/-- Python truthiness of an optional string config value (`None` and the
empty string are falsy). -/
def truthyStr : Option String → Bool
  | none => false
  | some s => !(s = "")

/-- `BaseNode.get_max_attempts` (src/magnus/nodes.py lines 288-298):
`int(self.config['retry']) or 1` when `retry` is configured, else 1.
Python's `x or 1` yields 1 exactly when the integer `x` is 0. -/
def get_max_attempts (retry : Option Int) : Int :=
  match retry with
  | some r => if r = 0 then 1 else r
  | none => 1

/-- One call of `node.execute` for the leaf variants
(`TaskNode.execute`, `SuccessNode.execute`, `FailNode.execute`).
A task's attempt is SUCCESS unless the command was really run (not mock)
and raised; a success node marks the enclosing branch/run log SUCCESS and
its own attempt SUCCESS; a fail node marks the branch/run log FAIL and its
own attempt SUCCESS. -/
def node_execute (n : Node) (mock : Bool) (attemptIdx : Nat) (st : RunState) :
    Status × RunState :=
  match n.node_type with
  | NodeType.task =>
      (if !mock && n.cmdFails attemptIdx then Status.FAIL else Status.SUCCESS, st)
  | NodeType.success => (Status.SUCCESS, { st with runStatus := Status.SUCCESS })
  | NodeType.fail => (Status.SUCCESS, { st with runStatus := Status.FAIL })

/-- The retry loop of `BaseExecutor.execute_node` (src/magnus/executor.py
lines 232-254), written with an explicit fuel argument: the Python `while
attempts < max_attempts` loop increments `attempts` on every failed
iteration and exits on success, so it performs at most
`max_attempts - attempts` iterations; callers pass that as `fuel`.
Each iteration appends the returned attempt log, breaks with step status
SUCCESS on a non-FAIL attempt, and sets step status FAIL when the
incremented counter reaches `max_attempts`. -/
def execute_node_loop (execu : Nat → RunState → Status × RunState)
    (max_attempts : Nat) :
    Nat → Nat → StepLog → RunState → StepLog × RunState
  | 0, _, sl, st => (sl, st)
  | fuel + 1, attempts, sl, st =>
      if attempts < max_attempts then
        let res := execu attempts st
        let sl1 := { sl with
          attempts := sl.attempts ++ [{ attempt_numner := attempts, status := res.1 }] }
        if res.1 = Status.FAIL then
          let attempts1 := attempts + 1
          let sl2 := if attempts1 = max_attempts then
                       { sl1 with status := Status.FAIL } else sl1
          execute_node_loop execu max_attempts fuel attempts1 sl2 res.2
        else
          ({ sl1 with status := Status.SUCCESS }, res.2)
      else (sl, st)

/-- `BaseExecutor.execute_node` (src/magnus/executor.py lines 200-257) for a
leaf node under the local executor: fetch the step log, read `mock` from
it, run the retry loop, store the resulting step log.  Catalog and
parameter synchronization touch only external services and are omitted.
The `none` case models the `StepLogNotFoundError` raise; it is unreachable
in the modelled flows because `execute_from_graph` stores the step log
first. -/
def execute_node (n : Node) (st : RunState) : RunState :=
  let maxAttempts := (get_max_attempts n.retry).toNat
  match lookupStep st.steps n.name with
  | none => st
  | some sl =>
      let res := execute_node_loop (node_execute n sl.mock) maxAttempts
        maxAttempts 0 sl st
      { res.2 with steps := setStep res.2.steps res.1 }

/-- The message `is_eligible_for_rerun` writes on the skipped step log. -/
def skipMessage : String := "Node execution successful in previous run, skipping it"

/-- The step log the rerun gate stores when it skips a node: marked
SUCCESS with the skip message (`is_eligible_for_rerun`, SUCCESS branch). -/
def skip_step_log (sl : StepLog) : StepLog :=
  { sl with status := Status.SUCCESS, message := skipMessage }

/-- The step log `execute_from_graph` stores for a node that is not
eligible for rerun: the created step log marked as a mocked SUCCESS. -/
def mock_step_log (sl : StepLog) : StepLog :=
  { sl with mock := true, status := Status.SUCCESS }

/-- `BaseExecutor.is_eligible_for_rerun` (src/magnus/executor.py lines
420-462).  `sl` is the step log `execute_from_graph` created for the node;
the source fetches it back from the store, which is modelled by threading
it (the Run Log Store is an external provider).  If no previous run log is
attached the node reruns.  If the previous run has no step log of this name
(`StepLogNotFoundError`) the node reruns and the pointer is kept.  If the
previous status is SUCCESS, the current step log is stored as SUCCESS with
a skip message and the node is not rerun.  Otherwise the node reruns and
the previous run log pointer is detached (`self.previous_run_log = None`). -/
def is_eligible_for_rerun (st : RunState) (name : String) (sl : StepLog) :
    Bool × RunState :=
  match st.prev with
  | some search =>
      match search name with
      | none => (true, st)
      | some prevStatus =>
          if prevStatus = Status.SUCCESS then
            (false, { st with steps := setStep st.steps (skip_step_log sl) })
          else
            (true, { st with prev := none })
  | none => (true, st)

/-- `run_log_store.create_step_log` followed by the field assignments of
`execute_from_graph` (status PROCESSING, step_type from the node); `mock`
defaults to false and `attempts` to empty (spec paragraph 3). -/
def create_step_log (n : Node) : StepLog :=
  { name := n.name, step_type := n.node_type, status := Status.PROCESSING,
    mock := false, message := "", attempts := [] }

/-- `BaseExecutor.execute_from_graph` (src/magnus/executor.py lines
271-325) restricted to the leaf node fragment: create the step log; a
terminal node (success/fail) is stored and executed immediately, bypassing
the re-run gate; otherwise the re-run gate runs, and an ineligible node is
stored as a mocked SUCCESS step log; an eligible leaf node is stored and
dispatched (`trigger_job` of the local executor calls `execute_node`). -/
def execute_from_graph (n : Node) (st : RunState) : RunState :=
  let sl := create_step_log n
  if n.node_type = NodeType.success ∨ n.node_type = NodeType.fail then
    execute_node n { st with steps := setStep st.steps sl }
  else
    let gate := is_eligible_for_rerun st n.name sl
    if gate.1 = false then
      { gate.2 with steps := setStep gate.2.steps (mock_step_log sl) }
    else
      execute_node n { gate.2 with steps := setStep gate.2.steps sl }

/-- A graph of leaf nodes.  Modelled from the spec: `graph.py` is not under
`src/` (only its tests are); spec paragraph 4.1 and the tests give a start node
name and an ordered node list. -/
structure Graph where
  start_at : String
  nodes : List Node

/-- Modelled from the spec: `Graph.get_node_by_name` (spec paragraph 4.1,
`src/tests/magnus/test_graph.py`); `none` models the `NodeNotFoundError`
raise. -/
def get_node_by_name (g : Graph) (name : String) : Option Node :=
  g.nodes.find? (fun n => n.name = name)

/-- Modelled from the spec: `Graph.get_fail_node` (spec paragraph 4.1,
`src/tests/magnus/test_graph.py`); `none` models the raise when no fail
node exists. -/
def get_fail_node (g : Graph) : Option Node :=
  g.nodes.find? (fun n => n.node_type = NodeType.fail)

/-- `BaseExecutor.get_status_and_next_node_name` (src/magnus/executor.py
lines 340-366): read the node's step log status from the store; the next
node is the node's `next`, except on FAIL where it is the graph's fail node
name, overridden by a truthy `on_failure`.  `none` models the raises
(missing step log, missing fail node). -/
def get_status_and_next_node_name (st : RunState) (n : Node) (g : Graph) :
    Option (Status × Option String) :=
  match lookupStep st.steps n.name with
  | none => none
  | some sl =>
      if sl.status = Status.FAIL then
        match get_fail_node g with
        | none => none
        | some f =>
            let nn := if truthyStr n.on_failure then n.on_failure else some f.name
            some (sl.status, nn)
      else some (sl.status, n.next)

/-- The traversal loop of `BaseExecutor.execute_graph` (src/magnus/executor.py
lines 368-418), with explicit fuel for termination.  Each iteration resolves
the current node (`none` aborts, modelling the raises), checks the
infinite-loop guard `previous == current`, executes the node, and either
stops (TRIGGERED status, terminal node, or no next node) or continues at
the next node name. -/
def execute_graph_loop (g : Graph) :
    Nat → String → Option String → RunState → RunState
  | 0, _, _, st => st
  | fuel + 1, current, previous, st =>
      match get_node_by_name g current with
      | none => st
      | some n =>
          if previous = some current then st
          else
            let st1 := execute_from_graph n st
            match get_status_and_next_node_name st1 n g with
            | none => st1
            | some sn =>
                if sn.1 = Status.TRIGGERED then st1
                else if n.node_type = NodeType.success ∨ n.node_type = NodeType.fail
                then st1
                else
                  match sn.2 with
                  | none => st1
                  | some nxt => execute_graph_loop g fuel nxt (some current) st1

/-- `BaseExecutor.execute_graph`: start the traversal at `dag.start_at`
with no previous node. -/
def execute_graph (g : Graph) (fuel : Nat) (st : RunState) : RunState :=
  execute_graph_loop g fuel g.start_at none st

/-- The join/reconcile tail shared by `ParallelNode.execute_as_graph`
(src/magnus/nodes.py lines 653-675), `MapNode.execute_as_graph` (lines
830-854) and `DagNode.execute_as_graph` (lines 967-995): over the child
branch log statuses, `step_success_bool` is false iff some branch is FAIL
and `waiting` is true iff some branch is PROCESSING; the parent step log
status becomes SUCCESS when nothing failed and nothing waits, FAIL when
something failed, and PROCESSING otherwise. -/
def reconcile_branch_statuses (branchStatuses : List Status) : Status :=
  let step_success_bool := branchStatuses.all (fun s => !(s = Status.FAIL))
  let waiting := branchStatuses.any (fun s => s = Status.PROCESSING)
  if step_success_bool then
    if !waiting then Status.SUCCESS else Status.PROCESSING
  else Status.FAIL

/-- The FAIL condition claimed by the spec (paragraph 8): some child branch is
FAIL and every other child's status is not PROCESSING.  Since a FAIL
branch is itself not PROCESSING, this equals: some branch FAIL and no
branch PROCESSING.  This definition follows the spec's words, to be
compared with `reconcile_branch_statuses` from the source. -/
def claimed_fail_condition (branchStatuses : List Status) : Bool :=
  branchStatuses.any (fun s => s = Status.FAIL) &&
    branchStatuses.all (fun s => !(s = Status.PROCESSING))

/-- The config keys `MapNode.__init__` reads (src/magnus/nodes.py lines
695-707): `iterate_on` and `iterate_as` via `config.get(-, None)`, and the
`branch` key read by `get_sub_graph`. -/
structure MapNodeConfig where
  iterate_on : Option String
  iterate_as : Option String
  branch : Option Unit

/-- `MapNode.__init__` (src/magnus/nodes.py lines 695-707): raise when
`iterate_on` is falsy, then when `iterate_as` is falsy, then build the sub
graph from `config['branch']` (KeyError when absent).  Construction never
reads the run's parameters. -/
def map_node_init (cfg : MapNodeConfig) : Except String (String × String) :=
  if truthyStr cfg.iterate_on = false then
    Except.error
      "A node type of map requires a parameter iterate_on, please define it in the config"
  else if truthyStr cfg.iterate_as = false then
    Except.error
      "A node type of map requires a parameter iterate_as, please define it in the config"
  else
    match cfg.branch with
    | none => Except.error "KeyError: branch"
    | some _ => Except.ok (cfg.iterate_on.getD "", cfg.iterate_as.getD "")

/-- A run-log parameter value: a Python list of iteration values, or
anything else. -/
inductive ParamValue
  | plist (elems : List String)
  | pother
deriving DecidableEq, Repr

/-- The iterate_on gate at the top of `MapNode.execute_as_graph`
(src/magnus/nodes.py lines 781-788): the named parameter must be present
in the Run Log parameters and must be a list; both checks raise at
execution time. -/
def map_iterate_on_check (iterate_on : String)
    (parameters : String → Option ParamValue) : Except String (List String) :=
  match parameters iterate_on with
  | none =>
      Except.error
        "Expected parameter not present in Run Log parameters, was it ever set before?"
  | some (ParamValue.plist xs) => Except.ok xs
  | some ParamValue.pother =>
      Except.error "Only list is allowed as a valid iterator type"

/-- `ParallelNode.get_sub_graphs` (src/magnus/nodes.py lines 548-563),
called from `ParallelNode.__init__`: build one sub graph per entry of
`config['branches']` under the dotted internal branch name, and raise when
the resulting mapping is empty. -/
def parallel_get_sub_graphs (internal_name : String)
    (branch_configs : List (String × Unit)) : Except String (List String) :=
  let branches := branch_configs.map (fun bc => internal_name ++ "." ++ bc.1)
  if branches.isEmpty then Except.error "A parallel node should have branches"
  else Except.ok branches

/-- Python `name.replace(pat, repl, 1)` for a one-character pattern, on the
character list of the string: the leftmost occurrence of `pat`, if any, is
replaced by `repl`. -/
def replaceFirstChar (pat : Char) (repl : List Char) : List Char → List Char
  | [] => []
  | c :: cs => if c = pat then repl ++ cs else c :: replaceFirstChar pat repl cs

/-- The map placeholder character.  Modelled from the spec:
`defaults.MAP_PLACEHOLDER` lives in `defaults.py`, which is not under
`src/`; the spec glossary fixes it to the single reserved character `%`. -/
def mapPlaceholder : Char := Char.ofNat 37

/-- `BaseNode.resolve_map_placeholders` (src/magnus/nodes.py lines
333-351): an empty (or None) map variable returns the name unchanged;
otherwise one `name.replace('%', value, 1)` per mapping entry in insertion
order. -/
def resolve_map_placeholders (name : List Char)
    (map_variable : List (String × List Char)) : List Char :=
  if map_variable = [] then name
  else map_variable.foldl (fun n kv => replaceFirstChar mapPlaceholder kv.2 n) name

/-- The use_cached gate of `pipeline.execute` (src/magnus/pipeline.py lines
190-203): when `use_cached` or `use_cached_force` is set, the previous run
log is loaded; a dag hash mismatch raises unless forced; the returned Bool
tells whether a previous run log was attached to the executor. -/
def apply_cached_run (use_cached use_cached_force : Bool)
    (previous_dag_hash current_dag_hash : String) : Except String Bool :=
  if use_cached || use_cached_force then
    if !(previous_dag_hash = current_dag_hash) then
      if !use_cached_force then
        Except.error
          "Not using the cached run as the dag hash did not match, use --use-cached-force if you want to force"
      else Except.ok true
    else Except.ok true
  else Except.ok false

/-- The tail of `pipeline.execute`: the cached-run gate runs strictly
before `prepare_for_graph_execution` and `execute_graph`; an error in the
gate aborts the call before any traversal.  `traverse` stands for the
remainder (run-log set-up plus graph traversal), given whether a previous
run log was attached. -/
def pipeline_execute_model (use_cached use_cached_force : Bool)
    (previous_dag_hash current_dag_hash : String)
    (traverse : Bool → RunState) : Except String RunState :=
  match apply_cached_run use_cached use_cached_force previous_dag_hash
      current_dag_hash with
  | Except.error e => Except.error e
  | Except.ok attached => Except.ok (traverse attached)

/-- A concrete task node for the re-run scenario: its command always
succeeds. -/
def c5task : Node :=
  { name := "t1", node_type := NodeType.task, next := some "succ",
    on_failure := some "f", retry := none, cmdFails := fun _ => false }

/-- The success node of the re-run scenario. -/
def c5succ : Node :=
  { name := "succ", node_type := NodeType.success, next := none,
    on_failure := none, retry := none, cmdFails := fun _ => false }

/-- The fail node of the re-run scenario. -/
def c5fail : Node :=
  { name := "f", node_type := NodeType.fail, next := none,
    on_failure := none, retry := none, cmdFails := fun _ => false }

/-- A linear dag `t1 -> succ` with fail node `f`. -/
def c5graph : Graph := { start_at := "t1", nodes := [c5task, c5succ, c5fail] }

/-- A fresh run state whose attached previous run log reports SUCCESS for
every step (the all-SUCCESS re-run of the claim). -/
def c5state : RunState :=
  { steps := [], runStatus := Status.PROCESSING,
    prev := some (fun _ => some Status.SUCCESS) }

/-- A run state holding a FAIL step log for `t1`, used to exercise
`get_status_and_next_node_name`. -/
def c3state : RunState :=
  { steps := [("t1",
      { name := "t1", step_type := NodeType.task, status := Status.FAIL,
        mock := false, message := "", attempts := [] })],
    runStatus := Status.PROCESSING, prev := none }

/-- An always-failing task node with two configured retries. -/
def c1task : Node :=
  { name := "t1", node_type := NodeType.task, next := some "succ",
    on_failure := none, retry := some 2, cmdFails := fun _ => true }

/-- A fresh PROCESSING step log for `t1`. -/
def c1steplog : StepLog := create_step_log c1task

/-- The property claimed of a re-run Run Log, weakened to the non-terminal
step logs: every stored step log either belongs to a terminal
(success/fail) node or is a mocked skip with no attempts. -/
def mocked_invariant (steps : List (String × StepLog)) : Prop :=
  ∀ q ∈ steps,
    (q.2.step_type = NodeType.success ∨ q.2.step_type = NodeType.fail) ∨
      (q.2.mock = true ∧ q.2.attempts = [])

example :
    (lookupStep (execute_graph c5graph 3 c5state).steps "succ").map
      (fun sl => (sl.mock, sl.attempts.length)) = some (false, 1) := by decide

example :
    (lookupStep (execute_graph c5graph 3 c5state).steps "t1").map
      (fun sl => (sl.mock, sl.attempts.length, sl.status))
      = some (true, 0, Status.SUCCESS) := by decide

example : (execute_graph c5graph 3 c5state).runStatus = Status.SUCCESS := by decide

/-- C10: a node whose config sets `retry` to 0 (after integer conversion)
gets `get_max_attempts() = 1`, the same as when `retry` is absent, and the
returned value is never 0. -/
theorem get_max_attempts_spec :
    get_max_attempts (some 0) = 1 ∧ get_max_attempts none = 1 ∧
      ∀ retry, get_max_attempts retry ≠ 0 := by
  refine ⟨rfl, rfl, ?_⟩
  intro retry
  match retry with
  | none => simp [get_max_attempts]
  | some r =>
      by_cases h : r = 0 <;> simp [get_max_attempts, h]

/-- Witness for C10 at concrete inputs. -/
theorem get_max_attempts_spec_witness :
    get_max_attempts (some 0) = 1 ∧ get_max_attempts none = 1 ∧
      get_max_attempts (some 5) ≠ 0 :=
  ⟨get_max_attempts_spec.1, get_max_attempts_spec.2.1,
    get_max_attempts_spec.2.2 (some 5)⟩

/-- C2 counterexample: with child branch logs [FAIL, PROCESSING] the code
reconciles the composite step to FAIL, but the claimed condition (some
child FAIL and every other child not PROCESSING) is false there, so
"status is FAIL if and only if some child has status FAIL and every other
child's status is not PROCESSING" fails on the code. -/
theorem reconcile_fail_claim_counterexample :
    reconcile_branch_statuses [Status.FAIL, Status.PROCESSING] = Status.FAIL ∧
      claimed_fail_condition [Status.FAIL, Status.PROCESSING] = false := by
  exact ⟨rfl, rfl⟩

/-- C2 (amended): provided no child branch log is TRIGGERED, the composite
step is SUCCESS iff every child is SUCCESS; it is FAIL iff some child is
FAIL (regardless of other children still PROCESSING); and it is PROCESSING
iff no child is FAIL and some child is PROCESSING. -/
theorem reconcile_branch_statuses_spec (l : List Status)
    (h : ∀ s ∈ l, s ≠ Status.TRIGGERED) :
    (reconcile_branch_statuses l = Status.SUCCESS ↔ ∀ s ∈ l, s = Status.SUCCESS) ∧
    (reconcile_branch_statuses l = Status.FAIL ↔ ∃ s ∈ l, s = Status.FAIL) ∧
    (reconcile_branch_statuses l = Status.PROCESSING ↔
      ((∀ s ∈ l, s ≠ Status.FAIL) ∧ ∃ s ∈ l, s = Status.PROCESSING)) := by
  by_cases hF : ∀ s ∈ l, ¬ s = Status.FAIL
  · have hb1 : l.all (fun s => !(s = Status.FAIL)) = true := by
      simp only [List.all_eq_true]
      intro s hs
      simp [hF s hs]
    by_cases hP : ∃ s ∈ l, s = Status.PROCESSING
    · have hb2 : l.any (fun s => s = Status.PROCESSING) = true := by
        simp only [List.any_eq_true]
        obtain ⟨s, hs, he⟩ := hP
        exact ⟨s, hs, by simp [he]⟩
      have hres : reconcile_branch_statuses l = Status.PROCESSING := by
        simp [reconcile_branch_statuses, hb1, hb2]
      refine ⟨?_, ?_, ?_⟩
      · rw [hres]
        constructor
        · intro he; cases he
        · intro hall
          obtain ⟨s, hs, he⟩ := hP
          rw [hall s hs] at he
          cases he
      · rw [hres]
        constructor
        · intro he; cases he
        · intro ⟨s, hs, he⟩
          exact absurd he (hF s hs)
      · rw [hres]
        simp only [true_iff]
        exact ⟨hF, hP⟩
    · have hb2 : l.any (fun s => s = Status.PROCESSING) = false := by
        rw [← Bool.not_eq_true, List.any_eq_true]
        intro ⟨s, hs, he⟩
        exact hP ⟨s, hs, by simpa using he⟩
      have hres : reconcile_branch_statuses l = Status.SUCCESS := by
        simp [reconcile_branch_statuses, hb1, hb2]
      refine ⟨?_, ?_, ?_⟩
      · rw [hres]
        simp only [true_iff]
        intro s hs
        cases s with
        | SUCCESS => rfl
        | FAIL => exact absurd rfl (hF _ hs)
        | PROCESSING => exact absurd ⟨_, hs, rfl⟩ hP
        | TRIGGERED => exact absurd rfl (h _ hs)
      · rw [hres]
        constructor
        · intro he; cases he
        · intro ⟨s, hs, he⟩
          exact absurd he (hF s hs)
      · rw [hres]
        constructor
        · intro he; cases he
        · intro ⟨_, hex⟩
          exact absurd hex hP
  · have hex : ∃ s ∈ l, s = Status.FAIL := by
      push_neg at hF
      obtain ⟨s, hs, he⟩ := hF
      exact ⟨s, hs, he⟩
    have hb1 : l.all (fun s => !(s = Status.FAIL)) = false := by
      rw [← Bool.not_eq_true, List.all_eq_true]
      intro hall
      obtain ⟨s, hs, he⟩ := hex
      have := hall s hs
      simp [he] at this
    have hres : reconcile_branch_statuses l = Status.FAIL := by
      simp [reconcile_branch_statuses, hb1]
    refine ⟨?_, ?_, ?_⟩
    · rw [hres]
      constructor
      · intro he; cases he
      · intro hall
        obtain ⟨s, hs, he⟩ := hex
        rw [hall s hs] at he
        cases he
    · rw [hres]
      simp only [true_iff]
      exact hex
    · rw [hres]
      constructor
      · intro he; cases he
      · intro ⟨hnone, _⟩
        obtain ⟨s, hs, he⟩ := hex
        exact absurd he (hnone s hs)

/-- Witness for C2 (amended) at a concrete list of branch statuses. -/
theorem reconcile_branch_statuses_spec_witness :
    reconcile_branch_statuses [Status.SUCCESS, Status.FAIL] = Status.FAIL ↔
      ∃ s ∈ [Status.SUCCESS, Status.FAIL], s = Status.FAIL :=
  (reconcile_branch_statuses_spec [Status.SUCCESS, Status.FAIL]
    (by decide)).2.1

/-- C9: a pipeline execution started with use_cached against a previous
run whose dag hash differs from the current one fails before the graph is
traversed, unless use_cached_force is set, in which case it proceeds with
the previous run log attached. -/
theorem use_cached_dag_hash_spec (use_cached use_cached_force : Bool)
    (previous_dag_hash current_dag_hash : String)
    (huse : use_cached = true)
    (hdiff : previous_dag_hash ≠ current_dag_hash) :
    (use_cached_force = false →
      ∀ traverse, pipeline_execute_model use_cached use_cached_force
          previous_dag_hash current_dag_hash traverse
        = Except.error "Not using the cached run as the dag hash did not match, use --use-cached-force if you want to force") ∧
    (use_cached_force = true →
      ∀ traverse, pipeline_execute_model use_cached use_cached_force
          previous_dag_hash current_dag_hash traverse
        = Except.ok (traverse true)) := by
  subst huse
  constructor <;> intro hf traverse <;> subst hf <;>
    simp [pipeline_execute_model, apply_cached_run, hdiff]

/-- Witness for C9 at concrete hashes. -/
theorem use_cached_dag_hash_spec_witness :
    pipeline_execute_model true false "h1" "h2" (fun _ => c5state)
        = Except.error "Not using the cached run as the dag hash did not match, use --use-cached-force if you want to force" ∧
      pipeline_execute_model true true "h1" "h2" (fun _ => c5state)
        = Except.ok c5state :=
  ⟨(use_cached_dag_hash_spec true false "h1" "h2" rfl (by decide)).1 rfl
      (fun _ => c5state),
    (use_cached_dag_hash_spec true true "h1" "h2" rfl (by decide)).2 rfl
      (fun _ => c5state)⟩

/-- C6 counterexample: a map node whose `iterate_on` names a parameter
that is not a list constructs successfully; the not-a-list failure is only
raised by the gate at the top of `execute_as_graph`, at execution time —
so "constructing a map node whose iterate_on names a parameter whose value
is not a list fails at construction time" is false. -/
theorem map_iterate_on_construction_counterexample :
    map_node_init { iterate_on := some "x", iterate_as := some "i", branch := some () }
        = Except.ok ("x", "i") ∧
      map_iterate_on_check "x"
          (fun nm => if nm = "x" then some ParamValue.pother else none)
        = Except.error "Only list is allowed as a valid iterator type" := by
  exact ⟨rfl, rfl⟩

/-- C6 (amended): a map node config lacking iterate_on, or lacking
iterate_as, fails at construction, as does a parallel node with an empty
branches mapping; but iterate_on naming a non-list parameter fails only
when execute_as_graph runs, not at construction. -/
theorem map_parallel_validation_spec :
    (∀ cfg : MapNodeConfig, cfg.iterate_on = none →
      map_node_init cfg
        = Except.error "A node type of map requires a parameter iterate_on, please define it in the config") ∧
    (∀ cfg : MapNodeConfig, truthyStr cfg.iterate_on = true → cfg.iterate_as = none →
      map_node_init cfg
        = Except.error "A node type of map requires a parameter iterate_as, please define it in the config") ∧
    (∀ internal_name, parallel_get_sub_graphs internal_name []
        = Except.error "A parallel node should have branches") ∧
    (∀ io params, (∀ xs, params io ≠ some (ParamValue.plist xs)) →
      ∃ e, map_iterate_on_check io params = Except.error e) := by
  refine ⟨?_, ?_, ?_, ?_⟩
  · intro cfg hio
    simp [map_node_init, hio, truthyStr]
  · intro cfg hio hia
    unfold map_node_init
    rw [hio, hia]
    simp [truthyStr]
  · intro internal_name
    rfl
  · intro io params hnl
    match hp : params io with
    | none =>
        exact ⟨"Expected parameter not present in Run Log parameters, was it ever set before?",
          by simp [map_iterate_on_check, hp]⟩
    | some (ParamValue.plist xs) => exact absurd hp (hnl xs)
    | some ParamValue.pother =>
        exact ⟨"Only list is allowed as a valid iterator type",
          by simp [map_iterate_on_check, hp]⟩

/-- Witness for C6 (amended) at concrete configs. -/
theorem map_parallel_validation_spec_witness :
    map_node_init { iterate_on := none, iterate_as := some "i", branch := some () }
        = Except.error "A node type of map requires a parameter iterate_on, please define it in the config" ∧
      map_node_init { iterate_on := some "x", iterate_as := none, branch := some () }
        = Except.error "A node type of map requires a parameter iterate_as, please define it in the config" ∧
      parallel_get_sub_graphs "p" []
        = Except.error "A parallel node should have branches" ∧
      ∃ e, map_iterate_on_check "x" (fun _ => none) = Except.error e :=
  ⟨map_parallel_validation_spec.1 _ rfl,
    map_parallel_validation_spec.2.1 _ rfl rfl,
    map_parallel_validation_spec.2.2.1 "p",
    map_parallel_validation_spec.2.2.2 "x" (fun _ => none)
      (fun xs h => by cases h)⟩

/-- C7: executing a fail node sets the enclosing branch/run log status to
FAIL while the returned attempt status is always SUCCESS. -/
theorem fail_node_execute_spec (n : Node) (h : n.node_type = NodeType.fail)
    (mock : Bool) (i : Nat) (st : RunState) :
    (node_execute n mock i st).1 = Status.SUCCESS ∧
      (node_execute n mock i st).2.runStatus = Status.FAIL := by
  simp [node_execute, h]

/-- Witness for C7 on the concrete fail node. -/
theorem fail_node_execute_spec_witness :
    (node_execute c5fail false 0 c5state).1 = Status.SUCCESS ∧
      (node_execute c5fail false 0 c5state).2.runStatus = Status.FAIL :=
  fail_node_execute_spec c5fail rfl false 0 c5state

/-- C3: for a node just executed, get_status_and_next_node_name returns
its step-log status paired with: the node's next name when the status is
not FAIL; the node's on_failure name when the status is FAIL and
on_failure is configured (non-empty); and the graph's fail node name when
the status is FAIL and no on_failure is configured. -/
theorem get_status_and_next_node_name_spec (st : RunState) (n : Node)
    (g : Graph) (sl : StepLog) (f : Node)
    (hsl : lookupStep st.steps n.name = some sl)
    (hf : get_fail_node g = some f)
    (hne : n.on_failure ≠ some "") :
    (sl.status ≠ Status.FAIL →
      get_status_and_next_node_name st n g = some (sl.status, n.next)) ∧
    (∀ ofn, sl.status = Status.FAIL → n.on_failure = some ofn →
      get_status_and_next_node_name st n g = some (Status.FAIL, some ofn)) ∧
    (sl.status = Status.FAIL → n.on_failure = none →
      get_status_and_next_node_name st n g = some (Status.FAIL, some f.name)) := by
  refine ⟨?_, ?_, ?_⟩
  · intro hnf
    simp [get_status_and_next_node_name, hsl, hnf]
  · intro ofn hfail hofn
    have hofe : ofn ≠ "" := by
      intro he
      rw [he] at hofn
      exact hne hofn
    have htr : truthyStr (some ofn) = true := by
      simp [truthyStr, hofe]
    simp [get_status_and_next_node_name, hsl, hfail, hf, hofn, htr]
  · intro hfail hofn
    have htr : truthyStr n.on_failure = false := by
      rw [hofn]
      rfl
    simp [get_status_and_next_node_name, hsl, hfail, hf, htr]

/-- Witness for C3: a FAIL step log with a configured on_failure routes to
the on_failure node. -/
theorem get_status_and_next_node_name_spec_witness :
    get_status_and_next_node_name c3state c5task c5graph
      = some (Status.FAIL, some "f") :=
  (get_status_and_next_node_name_spec c3state c5task c5graph
      { name := "t1", step_type := NodeType.task, status := Status.FAIL,
        mock := false, message := "", attempts := [] }
      c5fail rfl rfl (by decide)).2.1 "f" rfl rfl

/-- When the pattern does not occur, `str.replace(pat, repl, 1)` is the
identity. -/
theorem replaceFirstChar_not_mem (pat : Char) (repl : List Char) :
    ∀ s : List Char, pat ∉ s → replaceFirstChar pat repl s = s := by
  intro s
  induction s with
  | nil => intro _; rfl
  | cons c cs ih =>
      intro h
      have hc : ¬ c = pat := by
        intro e
        exact h (by simp [e])
      have hcs : pat ∉ cs := fun hm => h (List.mem_cons_of_mem c hm)
      simp [replaceFirstChar, hc, ih hcs]

/-- When the pattern occurs, `str.replace(pat, repl, 1)` rewrites exactly
the leftmost occurrence: the string splits as `pre ++ pat :: post` with no
pattern in `pre`, and the result is `pre ++ repl ++ post`. -/
theorem replaceFirstChar_mem (pat : Char) (repl : List Char) :
    ∀ s : List Char, pat ∈ s →
      ∃ pre post, s = pre ++ pat :: post ∧ pat ∉ pre ∧
        replaceFirstChar pat repl s = pre ++ repl ++ post := by
  intro s
  induction s with
  | nil => intro h; cases h
  | cons c cs ih =>
      intro h
      by_cases hc : c = pat
      · subst hc
        exact ⟨[], cs, rfl, by simp, by simp [replaceFirstChar]⟩
      · have hmem : pat ∈ cs := by
          cases List.mem_cons.mp h with
          | inl he => exact absurd he.symm hc
          | inr hm => exact hm
        obtain ⟨pre, post, h1, h2, h3⟩ := ih hmem
        refine ⟨c :: pre, post, by simp [h1], ?_, ?_⟩
        · intro hm
          cases List.mem_cons.mp hm with
          | inl he => exact hc he.symm
          | inr hp => exact h2 hp
        · simp [replaceFirstChar, hc, h3]

/-- C8: resolve_map_placeholders processes the map variable entries in
insertion order, and each entry rewrites exactly the leftmost remaining
occurrence of the placeholder with that entry's value (and leaves the name
unchanged when no occurrence remains). -/
theorem resolve_map_placeholders_spec (name : List Char) (k : String)
    (v : List Char) (rest : List (String × List Char)) :
    resolve_map_placeholders name ((k, v) :: rest)
        = resolve_map_placeholders (replaceFirstChar mapPlaceholder v name) rest
      ∧ (mapPlaceholder ∈ name →
          ∃ pre post, name = pre ++ mapPlaceholder :: post ∧ mapPlaceholder ∉ pre ∧
            replaceFirstChar mapPlaceholder v name = pre ++ v ++ post)
      ∧ (mapPlaceholder ∉ name → replaceFirstChar mapPlaceholder v name = name) := by
  refine ⟨?_, replaceFirstChar_mem mapPlaceholder v name,
    replaceFirstChar_not_mem mapPlaceholder v name⟩
  cases rest with
  | nil => simp [resolve_map_placeholders]
  | cons p ps => simp [resolve_map_placeholders]

/-- Witness for C8 on a concrete name with two placeholders and two map
variable entries. -/
theorem resolve_map_placeholders_spec_witness :
    resolve_map_placeholders [Char.ofNat 97, mapPlaceholder, mapPlaceholder]
        [("k1", [Char.ofNat 98]), ("k2", [Char.ofNat 99])]
      = resolve_map_placeholders
          (replaceFirstChar mapPlaceholder [Char.ofNat 98]
            [Char.ofNat 97, mapPlaceholder, mapPlaceholder])
          [("k2", [Char.ofNat 99])]
      ∧ ∃ pre post,
          [Char.ofNat 97, mapPlaceholder, mapPlaceholder]
              = pre ++ mapPlaceholder :: post
            ∧ mapPlaceholder ∉ pre
            ∧ replaceFirstChar mapPlaceholder [Char.ofNat 98]
                [Char.ofNat 97, mapPlaceholder, mapPlaceholder]
              = pre ++ [Char.ofNat 98] ++ post :=
  ⟨(resolve_map_placeholders_spec [Char.ofNat 97, mapPlaceholder, mapPlaceholder]
      "k1" [Char.ofNat 98] [("k2", [Char.ofNat 99])]).1,
    (resolve_map_placeholders_spec [Char.ofNat 97, mapPlaceholder, mapPlaceholder]
      "k1" [Char.ofNat 98] [("k2", [Char.ofNat 99])]).2.1 (by decide)⟩

/-- The last element of a list is a member of it. -/
theorem mem_of_getLast_opt {α : Type} {l : List α} {a : α}
    (h : l.getLast? = some a) : a ∈ l := by
  obtain ⟨hne, he⟩ := List.mem_getLast?_eq_getLast (x := a) h
  rw [he]
  exact List.getLast_mem hne

/-- The retry loop returns immediately once the attempt counter has
reached max_attempts, whatever the remaining fuel. -/
theorem execute_node_loop_stop (execu : Nat → RunState → Status × RunState)
    (max_attempts fuel attempts : Nat) (sl : StepLog) (st : RunState)
    (h : ¬ attempts < max_attempts) :
    execute_node_loop execu max_attempts fuel attempts sl st = (sl, st) := by
  cases fuel with
  | zero => rfl
  | succ fuel => simp [execute_node_loop, h]

/-- One successful iteration of the retry loop: the attempt is appended
and the step status becomes SUCCESS. -/
theorem execute_node_loop_succ_success (execu : Nat → RunState → Status × RunState)
    (max_attempts fuel attempts : Nat) (sl : StepLog) (st : RunState)
    (hlt : attempts < max_attempts) (hs : ¬ (execu attempts st).1 = Status.FAIL) :
    execute_node_loop execu max_attempts (fuel + 1) attempts sl st =
      ({ sl with
          attempts := sl.attempts
            ++ [{ attempt_numner := attempts, status := (execu attempts st).1 }],
          status := Status.SUCCESS }, (execu attempts st).2) := by
  simp [execute_node_loop, hlt, hs]

/-- One failed iteration of the retry loop: the FAIL attempt is appended,
the step status is set to FAIL exactly when the incremented counter
reaches max_attempts, and the loop continues. -/
theorem execute_node_loop_succ_fail (execu : Nat → RunState → Status × RunState)
    (max_attempts fuel attempts : Nat) (sl : StepLog) (st : RunState)
    (hlt : attempts < max_attempts) (hf : (execu attempts st).1 = Status.FAIL) :
    execute_node_loop execu max_attempts (fuel + 1) attempts sl st =
      execute_node_loop execu max_attempts fuel (attempts + 1)
        (if attempts + 1 = max_attempts then
          { sl with
              attempts := sl.attempts
                ++ [{ attempt_numner := attempts, status := Status.FAIL }],
              status := Status.FAIL }
        else
          { sl with
              attempts := sl.attempts
                ++ [{ attempt_numner := attempts, status := Status.FAIL }] })
        (execu attempts st).2 := by
  simp only [execute_node_loop, if_pos hlt, hf, reduceIte]

/-- Invariant characterization of the retry loop of execute_node, for any
fuel covering the remaining iterations: the appended attempts never exceed
the remaining budget; the final status is SUCCESS exactly when the last
appended attempt is SUCCESS; the final status is FAIL exactly when the
loop ran and exhausted the budget with only FAIL attempts; and an
always-failing execution exhausts the budget with FAIL attempts only. -/
theorem execute_node_loop_spec (execu : Nat → RunState → Status × RunState)
    (max_attempts : Nat) :
    ∀ (fuel attempts : Nat) (sl : StepLog) (st : RunState),
      max_attempts ≤ fuel + attempts →
      sl.status = Status.PROCESSING →
      (∀ a ∈ sl.attempts, a.status = Status.FAIL) →
      (∀ i s, (execu i s).1 = Status.SUCCESS ∨ (execu i s).1 = Status.FAIL) →
      ((execute_node_loop execu max_attempts fuel attempts sl st).1.attempts.length
          ≤ sl.attempts.length + (max_attempts - attempts))
      ∧ ((execute_node_loop execu max_attempts fuel attempts sl st).1.status
            = Status.SUCCESS ↔
          ∃ a, (execute_node_loop execu max_attempts fuel attempts sl st).1.attempts.getLast?
              = some a ∧ a.status = Status.SUCCESS)
      ∧ ((execute_node_loop execu max_attempts fuel attempts sl st).1.status
            = Status.FAIL ↔
          (attempts < max_attempts
            ∧ (execute_node_loop execu max_attempts fuel attempts sl st).1.attempts.length
                = sl.attempts.length + (max_attempts - attempts)
            ∧ ∀ a ∈ (execute_node_loop execu max_attempts fuel attempts sl st).1.attempts,
                a.status = Status.FAIL))
      ∧ ((∀ i s, (execu i s).1 = Status.FAIL) →
          (execute_node_loop execu max_attempts fuel attempts sl st).1.attempts.length
              = sl.attempts.length + (max_attempts - attempts)
            ∧ ∀ a ∈ (execute_node_loop execu max_attempts fuel attempts sl st).1.attempts,
                a.status = Status.FAIL) := by
  intro fuel
  induction fuel with
  | zero =>
      intro attempts sl st h hstat hall hexec
      have hge : ¬ attempts < max_attempts := by omega
      have hfst : (execute_node_loop execu max_attempts 0 attempts sl st).1 = sl := by
        rw [execute_node_loop_stop execu max_attempts 0 attempts sl st hge]
      rw [hfst]
      have hsub : max_attempts - attempts = 0 := by omega
      refine ⟨Nat.le_add_right _ _, ?_, ?_, ?_⟩
      · constructor
        · intro he
          rw [hstat] at he
          cases he
        · intro ⟨a, hl, hs⟩
          have := hall a (mem_of_getLast_opt hl)
          rw [this] at hs
          cases hs
      · constructor
        · intro he
          rw [hstat] at he
          cases he
        · intro ⟨hlt, _, _⟩
          omega
      · intro _
        rw [hsub]
        exact ⟨rfl, hall⟩
  | succ fuel ih =>
      intro attempts sl st h hstat hall hexec
      by_cases hlt : attempts < max_attempts
      · rcases hexec attempts st with hS | hF
        · have hne : ¬ (execu attempts st).1 = Status.FAIL := by
            rw [hS]
            simp
          have hfst : (execute_node_loop execu max_attempts (fuel + 1) attempts sl st).1
              = { sl with
                  attempts := sl.attempts
                    ++ [{ attempt_numner := attempts,
                          status := (execu attempts st).1 }],
                  status := Status.SUCCESS } := by
            rw [execute_node_loop_succ_success execu max_attempts fuel attempts sl st
              hlt hne]
          rw [hfst]
          refine ⟨?_, ?_, ?_, ?_⟩
          · simp only [List.length_append, List.length_singleton]
            omega
          · constructor
            · intro _
              exact ⟨{ attempt_numner := attempts, status := (execu attempts st).1 },
                List.getLast?_concat _, hS⟩
            · intro _
              rfl
          · constructor
            · intro he
              simp at he
            · intro ⟨_, _, hallr⟩
              have h2 : (execu attempts st).1 = Status.FAIL :=
                hallr { attempt_numner := attempts, status := (execu attempts st).1 }
                  (by simp)
              rw [hS] at h2
              cases h2
          · intro hAF
            have h2 := hAF attempts st
            rw [hS] at h2
            cases h2
        · rw [execute_node_loop_succ_fail execu max_attempts fuel attempts sl st
            hlt hF]
          by_cases heq : attempts + 1 = max_attempts
          · rw [if_pos heq]
            have hge2 : ¬ attempts + 1 < max_attempts := by omega
            have hfst : (execute_node_loop execu max_attempts fuel (attempts + 1)
                { sl with
                    attempts := sl.attempts
                      ++ [{ attempt_numner := attempts, status := Status.FAIL }],
                    status := Status.FAIL }
                (execu attempts st).2).1
                = { sl with
                    attempts := sl.attempts
                      ++ [{ attempt_numner := attempts, status := Status.FAIL }],
                    status := Status.FAIL } := by
              rw [execute_node_loop_stop execu max_attempts fuel (attempts + 1) _ _ hge2]
            rw [hfst]
            have hallx : ∀ a ∈ sl.attempts
                ++ [{ attempt_numner := attempts, status := Status.FAIL }],
                a.status = Status.FAIL := by
              intro a ha
              rcases List.mem_append.mp ha with hm | hm
              · exact hall a hm
              · rw [List.mem_singleton.mp hm]
            refine ⟨?_, ?_, ?_, ?_⟩
            · simp only [List.length_append, List.length_singleton]
              omega
            · constructor
              · intro he
                simp at he
              · intro ⟨a, hl, hs⟩
                simp only [List.getLast?_concat] at hl
                cases hl
                simp at hs
            · constructor
              · intro _
                refine ⟨hlt, ?_, hallx⟩
                simp only [List.length_append, List.length_singleton]
                omega
              · intro _
                rfl
            · intro _
              refine ⟨?_, hallx⟩
              simp only [List.length_append, List.length_singleton]
              omega
          · rw [if_neg heq]
            have hlt1 : attempts + 1 < max_attempts := by omega
            have h1 : max_attempts ≤ fuel + (attempts + 1) := by omega
            have hstat1 : ({ sl with
                attempts := sl.attempts
                  ++ [{ attempt_numner := attempts,
                        status := Status.FAIL }] } : StepLog).status
                = Status.PROCESSING := hstat
            have hall1 : ∀ a ∈ ({ sl with
                attempts := sl.attempts
                  ++ [{ attempt_numner := attempts,
                        status := Status.FAIL }] } : StepLog).attempts,
                a.status = Status.FAIL := by
              intro a ha
              rcases List.mem_append.mp ha with hm | hm
              · exact hall a hm
              · rw [List.mem_singleton.mp hm]
            obtain ⟨ih1, ih2, ih3, ih4⟩ :=
              ih (attempts + 1)
                { sl with
                    attempts := sl.attempts
                      ++ [{ attempt_numner := attempts, status := Status.FAIL }] }
                (execu attempts st).2 h1 hstat1 hall1 hexec
            have hlen1 : ({ sl with
                attempts := sl.attempts
                  ++ [{ attempt_numner := attempts,
                        status := Status.FAIL }] } : StepLog).attempts.length
                = sl.attempts.length + 1 := by
              simp
            refine ⟨?_, ih2, ?_, ?_⟩
            · rw [hlen1] at ih1
              omega
            · rw [ih3, hlen1]
              constructor
              · intro ⟨_, hl, hAF⟩
                exact ⟨hlt, by omega, hAF⟩
              · intro ⟨_, hl, hAF⟩
                exact ⟨hlt1, by omega, hAF⟩
            · intro hAF
              obtain ⟨hl, hAll⟩ := ih4 hAF
              rw [hlen1] at hl
              exact ⟨by omega, hAll⟩
      · have hfst : (execute_node_loop execu max_attempts (fuel + 1) attempts sl st).1
            = sl := by
          rw [execute_node_loop_stop execu max_attempts (fuel + 1) attempts sl st hlt]
        rw [hfst]
        have hsub : max_attempts - attempts = 0 := by omega
        refine ⟨Nat.le_add_right _ _, ?_, ?_, ?_⟩
        · constructor
          · intro he
            rw [hstat] at he
            cases he
          · intro ⟨a, hl, hs⟩
            have := hall a (mem_of_getLast_opt hl)
            rw [this] at hs
            cases hs
        · constructor
          · intro he
            rw [hstat] at he
            cases he
          · intro ⟨hlt2, _, _⟩
            exact absurd hlt2 hlt
        · intro _
          rw [hsub]
          exact ⟨rfl, hall⟩

/-- A leaf node's execute call always returns a SUCCESS or FAIL attempt
status. -/
theorem node_execute_status_total (n : Node) (mock : Bool) :
    ∀ i st, (node_execute n mock i st).1 = Status.SUCCESS ∨
      (node_execute n mock i st).1 = Status.FAIL := by
  intro i st
  cases hn : n.node_type with
  | task =>
      by_cases hc : (!mock && n.cmdFails i) = true
      · right
        simp [node_execute, hn, hc]
      · left
        simp only [node_execute, hn]
        rw [if_neg hc]
  | success => left; simp [node_execute, hn]
  | fail => left; simp [node_execute, hn]

/-- C1: over the executor's retry loop for a node with a fresh PROCESSING
step log, at most get_max_attempts() attempt logs are appended; the final
step status is SUCCESS iff the last appended attempt has status SUCCESS;
and if every attempt fails, all get_max_attempts() attempts are appended
and the step status is set to FAIL. -/
theorem execute_node_retry_properties (n : Node) (mock : Bool) (sl : StepLog)
    (st : RunState)
    (hempty : sl.attempts = []) (hstat : sl.status = Status.PROCESSING)
    (hmax : 1 ≤ (get_max_attempts n.retry).toNat) :
    ((execute_node_loop (node_execute n mock) (get_max_attempts n.retry).toNat
        (get_max_attempts n.retry).toNat 0 sl st).1.attempts.length
      ≤ (get_max_attempts n.retry).toNat)
    ∧ ((execute_node_loop (node_execute n mock) (get_max_attempts n.retry).toNat
          (get_max_attempts n.retry).toNat 0 sl st).1.status = Status.SUCCESS ↔
        ∃ a, (execute_node_loop (node_execute n mock) (get_max_attempts n.retry).toNat
            (get_max_attempts n.retry).toNat 0 sl st).1.attempts.getLast? = some a
          ∧ a.status = Status.SUCCESS)
    ∧ ((∀ i st2, (node_execute n mock i st2).1 = Status.FAIL) →
        (execute_node_loop (node_execute n mock) (get_max_attempts n.retry).toNat
            (get_max_attempts n.retry).toNat 0 sl st).1.status = Status.FAIL
          ∧ (execute_node_loop (node_execute n mock) (get_max_attempts n.retry).toNat
              (get_max_attempts n.retry).toNat 0 sl st).1.attempts.length
            = (get_max_attempts n.retry).toNat) := by
  have hall : ∀ a ∈ sl.attempts, a.status = Status.FAIL := by
    rw [hempty]
    intro a ha
    cases ha
  obtain ⟨h1, h2, h3, h4⟩ :=
    execute_node_loop_spec (node_execute n mock) (get_max_attempts n.retry).toNat
      (get_max_attempts n.retry).toNat 0 sl st (by omega) hstat hall
      (node_execute_status_total n mock)
  rw [hempty] at h1 h3 h4
  refine ⟨by simpa using h1, h2, ?_⟩
  intro hAF
  obtain ⟨hlen, hallr⟩ := h4 hAF
  refine ⟨?_, by simpa using hlen⟩
  exact h3.mpr ⟨by omega, hlen, hallr⟩

/-- Witness for C1 on a task node with retry 2 whose command always
fails: both attempts are appended and the step is FAIL. -/
theorem execute_node_retry_properties_witness :
    ((execute_node_loop (node_execute c1task false) (get_max_attempts c1task.retry).toNat
        (get_max_attempts c1task.retry).toNat 0 c1steplog c5state).1.attempts.length
      ≤ (get_max_attempts c1task.retry).toNat)
    ∧ ((execute_node_loop (node_execute c1task false) (get_max_attempts c1task.retry).toNat
          (get_max_attempts c1task.retry).toNat 0 c1steplog c5state).1.status = Status.FAIL
        ∧ (execute_node_loop (node_execute c1task false) (get_max_attempts c1task.retry).toNat
            (get_max_attempts c1task.retry).toNat 0 c1steplog c5state).1.attempts.length
          = (get_max_attempts c1task.retry).toNat) :=
  have h := execute_node_retry_properties c1task false c1steplog c5state rfl rfl
    (by decide)
  ⟨h.1, h.2.2 (fun i st2 => by simp [node_execute, c1task])⟩

/-- Every entry of an updated store is the new entry or an old one. -/
theorem mem_setStep {l : List (String × StepLog)} {sl : StepLog}
    {q : String × StepLog} (h : q ∈ setStep l sl) : q = (sl.name, sl) ∨ q ∈ l := by
  induction l with
  | nil =>
      simp only [setStep, List.mem_singleton] at h
      exact Or.inl h
  | cons kv rest ih =>
      obtain ⟨k, v⟩ := kv
      by_cases hk : k = sl.name
      · simp only [setStep, if_pos hk] at h
        rcases List.mem_cons.mp h with h1 | h1
        · left
          rw [h1, hk]
        · right
          exact List.mem_cons_of_mem _ h1
      · simp only [setStep, if_neg hk] at h
        rcases List.mem_cons.mp h with h1 | h1
        · right
          rw [h1]
          exact List.mem_cons_self _ _
        · rcases ih h1 with h2 | h2
          · exact Or.inl h2
          · exact Or.inr (List.mem_cons_of_mem _ h2)

/-- Reading back the step log just stored returns it. -/
theorem lookupStep_setStep_self (l : List (String × StepLog)) (sl : StepLog) :
    lookupStep (setStep l sl) sl.name = some sl := by
  induction l with
  | nil => simp [setStep, lookupStep]
  | cons kv rest ih =>
      obtain ⟨k, v⟩ := kv
      by_cases hk : k = sl.name
      · simp [setStep, hk, lookupStep]
      · simp [setStep, hk, lookupStep, ih]

/-- Two consecutive stores under the same step log name collapse to the
second. -/
theorem setStep_setStep (l : List (String × StepLog)) (a b : StepLog)
    (h : a.name = b.name) :
    setStep (setStep l a) b = setStep l b := by
  induction l with
  | nil => simp [setStep, h]
  | cons kv rest ih =>
      obtain ⟨k, v⟩ := kv
      by_cases hk : k = a.name
      · have hkb : k = b.name := by rw [hk, h]
        simp [setStep, hk, hkb, h]
      · have hkb : ¬ k = b.name := by
          rw [← h]
          exact hk
        simp [setStep, hk, hkb, ih]

/-- Executing a leaf node only ever touches the enclosing branch/run log
status, never the step-log store or the previous run log pointer. -/
theorem node_execute_preserves (n : Node) (mock : Bool) (i : Nat) (st : RunState) :
    (node_execute n mock i st).2.steps = st.steps ∧
      (node_execute n mock i st).2.prev = st.prev := by
  cases hn : n.node_type <;> simp [node_execute, hn]

/-- The retry loop preserves the step-log store and the previous run log
pointer, and preserves the step log's name and step_type. -/
theorem execute_node_loop_state_preserves (n : Node) (mock : Bool)
    (max_attempts : Nat) :
    ∀ (fuel attempts : Nat) (sl : StepLog) (st : RunState),
      ((execute_node_loop (node_execute n mock) max_attempts fuel attempts sl st).2.steps
          = st.steps
        ∧ (execute_node_loop (node_execute n mock) max_attempts fuel attempts sl st).2.prev
          = st.prev)
      ∧ ((execute_node_loop (node_execute n mock) max_attempts fuel attempts sl st).1.name
          = sl.name
        ∧ (execute_node_loop (node_execute n mock) max_attempts fuel attempts sl st).1.step_type
          = sl.step_type) := by
  intro fuel
  induction fuel with
  | zero =>
      intro attempts sl st
      exact ⟨⟨rfl, rfl⟩, rfl, rfl⟩
  | succ fuel ih =>
      intro attempts sl st
      by_cases hlt : attempts < max_attempts
      · by_cases hf : (node_execute n mock attempts st).1 = Status.FAIL
        · rw [execute_node_loop_succ_fail (node_execute n mock) max_attempts fuel
            attempts sl st hlt hf]
          obtain ⟨⟨hs1, hs2⟩, hn1, hn2⟩ :=
            ih (attempts + 1)
              (if attempts + 1 = max_attempts then
                { sl with
                    attempts := sl.attempts
                      ++ [{ attempt_numner := attempts, status := Status.FAIL }],
                    status := Status.FAIL }
              else
                { sl with
                    attempts := sl.attempts
                      ++ [{ attempt_numner := attempts, status := Status.FAIL }] })
              (node_execute n mock attempts st).2
          refine ⟨⟨?_, ?_⟩, ?_, ?_⟩
          · rw [hs1]
            exact (node_execute_preserves n mock attempts st).1
          · rw [hs2]
            exact (node_execute_preserves n mock attempts st).2
          · rw [hn1]
            split <;> rfl
          · rw [hn2]
            split <;> rfl
        · rw [execute_node_loop_succ_success (node_execute n mock) max_attempts fuel
            attempts sl st hlt hf]
          exact ⟨⟨(node_execute_preserves n mock attempts st).1,
            (node_execute_preserves n mock attempts st).2⟩, rfl, rfl⟩
      · rw [execute_node_loop_stop (node_execute n mock) max_attempts (fuel + 1)
          attempts sl st hlt]
        exact ⟨⟨rfl, rfl⟩, rfl, rfl⟩

/-- Effect of execute_node on the run state when the node's step log is
stored: the previous run log pointer is untouched and the store changes
only at the node's entry, keeping its name and step_type. -/
theorem execute_node_steps (n : Node) (st : RunState) (sl : StepLog)
    (hsl : lookupStep st.steps n.name = some sl) :
    (execute_node n st).prev = st.prev ∧
      ∃ sl2, sl2.name = sl.name ∧ sl2.step_type = sl.step_type ∧
        (execute_node n st).steps = setStep st.steps sl2 := by
  simp only [execute_node, hsl]
  obtain ⟨⟨hs1, hs2⟩, hn1, hn2⟩ :=
    execute_node_loop_state_preserves n sl.mock (get_max_attempts n.retry).toNat
      (get_max_attempts n.retry).toNat 0 sl st
  refine ⟨hs2, ⟨_, hn1, hn2, ?_⟩⟩
  rw [hs1]

/-- With no previous run log attached, every node is eligible for rerun
and the state is untouched. -/
theorem is_eligible_for_rerun_none (st : RunState) (hprev : st.prev = none)
    (name : String) (sl : StepLog) :
    is_eligible_for_rerun st name sl = (true, st) := by
  unfold is_eligible_for_rerun
  rw [hprev]

/-- With a previous run log reporting SUCCESS for the step, the gate
declines the rerun and stores the step log as SUCCESS with the skip
message. -/
theorem is_eligible_for_rerun_success (st : RunState)
    (p : String → Option Status) (name : String) (sl : StepLog)
    (hprev : st.prev = some p) (hs : p name = some Status.SUCCESS) :
    is_eligible_for_rerun st name sl
      = (false, { st with steps := setStep st.steps (skip_step_log sl) }) := by
  unfold is_eligible_for_rerun
  rw [hprev]
  simp only [hs, reduceIte]

/-- With a previous run log reporting a non-SUCCESS status for the step,
the gate accepts the rerun and detaches the previous run log pointer. -/
theorem is_eligible_for_rerun_divergent (st : RunState)
    (p : String → Option Status) (name : String) (sl : StepLog) (s : Status)
    (hprev : st.prev = some p) (hs : p name = some s)
    (hne : s ≠ Status.SUCCESS) :
    is_eligible_for_rerun st name sl = (true, { st with prev := none }) := by
  unfold is_eligible_for_rerun
  rw [hprev]
  simp only [hs, if_neg hne]

/-- execute_from_graph keeps a detached previous run log pointer detached. -/
theorem execute_from_graph_prev_none (n : Node) (st : RunState)
    (hprev : st.prev = none) :
    (execute_from_graph n st).prev = none := by
  unfold execute_from_graph
  by_cases ht : n.node_type = NodeType.success ∨ n.node_type = NodeType.fail
  · rw [if_pos ht]
    obtain ⟨h1, _⟩ := execute_node_steps n
      { st with steps := setStep st.steps (create_step_log n) } (create_step_log n)
      (lookupStep_setStep_self st.steps (create_step_log n))
    rw [h1]
    exact hprev
  · rw [if_neg ht]
    rw [is_eligible_for_rerun_none st hprev n.name (create_step_log n)]
    rw [if_neg (show ¬ ((true, st) : Bool × RunState).1 = false by simp)]
    obtain ⟨h1, _⟩ := execute_node_steps n
      { st with steps := setStep st.steps (create_step_log n) } (create_step_log n)
      (lookupStep_setStep_self st.steps (create_step_log n))
    rw [h1]
    exact hprev

/-- The traversal loop preserves any state predicate that each
execute_from_graph step preserves. -/
theorem execute_graph_loop_preserves (g : Graph) (P : RunState → Prop)
    (hstep : ∀ n st, P st → P (execute_from_graph n st)) :
    ∀ (fuel : Nat) (current : String) (prevName : Option String) (st : RunState),
      P st → P (execute_graph_loop g fuel current prevName st) := by
  intro fuel
  induction fuel with
  | zero =>
      intro _ _ st h
      exact h
  | succ fuel ih =>
      intro current prevName st h
      simp only [execute_graph_loop]
      split
      · exact h
      · rename_i n _
        by_cases hpc : prevName = some current
        · rw [if_pos hpc]
          exact h
        · rw [if_neg hpc]
          have h1 := hstep n st h
          split
          · exact h1
          · rename_i sn _
            by_cases htrig : sn.1 = Status.TRIGGERED
            · rw [if_pos htrig]
              exact h1
            · rw [if_neg htrig]
              by_cases hterm : n.node_type = NodeType.success
                  ∨ n.node_type = NodeType.fail
              · rw [if_pos hterm]
                exact h1
              · rw [if_neg hterm]
                split
                · exact h1
                · rename_i nxt _
                  exact ih nxt (some current) _ h1

/-- When the attached previous run log reports SUCCESS everywhere, one
execute_from_graph step keeps the previous run pointer and preserves the
mocked-step invariant: every non-terminal step log it stores is a mocked
skip with no attempts. -/
theorem execute_from_graph_all_success (n : Node) (st : RunState)
    (p : String → Option Status) (hp : ∀ nm, p nm = some Status.SUCCESS)
    (hprev : st.prev = some p) (hinv : mocked_invariant st.steps) :
    (execute_from_graph n st).prev = some p ∧
      mocked_invariant (execute_from_graph n st).steps := by
  unfold execute_from_graph
  by_cases ht : n.node_type = NodeType.success ∨ n.node_type = NodeType.fail
  · rw [if_pos ht]
    obtain ⟨h1, sl2, hname, htype, hsteps⟩ := execute_node_steps n
      { st with steps := setStep st.steps (create_step_log n) } (create_step_log n)
      (lookupStep_setStep_self st.steps (create_step_log n))
    constructor
    · rw [h1]
      exact hprev
    · intro q hq
      rw [hsteps] at hq
      rcases mem_setStep hq with h2 | h2
      · left
        rw [h2]
        show sl2.step_type = NodeType.success ∨ sl2.step_type = NodeType.fail
        rw [htype]
        exact ht
      · rcases mem_setStep h2 with h3 | h3
        · left
          rw [h3]
          exact ht
        · exact hinv q h3
  · rw [if_neg ht]
    rw [is_eligible_for_rerun_success st p n.name (create_step_log n) hprev
      (hp n.name)]
    have hif : ∀ (st2 : RunState) (a b : RunState),
        (if ((false, st2) : Bool × RunState).1 = false then a else b) = a :=
      fun _ _ _ => rfl
    rw [hif]
    constructor
    · exact hprev
    · intro q hq
      simp only [] at hq
      rw [setStep_setStep st.steps (skip_step_log (create_step_log n))
        (mock_step_log (create_step_log n)) rfl] at hq
      rcases mem_setStep hq with h2 | h2
      · right
        rw [h2]
        exact ⟨rfl, rfl⟩
      · exact hinv q h2

/-- C4: under an attached previous run log, a node whose previous step log
is SUCCESS is not rerun and a mocked SUCCESS step log is materialized in
the current run; a node whose previous step log exists with non-SUCCESS
status is rerun and the previous run pointer is detached; once detached,
every node is treated as fresh, and traversal never re-attaches the
pointer (so at most one continuous prefix of the previous run is reused). -/
theorem is_eligible_for_rerun_spec (st : RunState) (p : String → Option Status)
    (hprev : st.prev = some p) :
    (∀ name sl, p name = some Status.SUCCESS →
      is_eligible_for_rerun st name sl
        = (false, { st with steps := setStep st.steps (skip_step_log sl) })) ∧
    (∀ name sl s, p name = some s → s ≠ Status.SUCCESS →
      is_eligible_for_rerun st name sl = (true, { st with prev := none })) ∧
    (∀ st2 : RunState, st2.prev = none → ∀ name sl,
      is_eligible_for_rerun st2 name sl = (true, st2)) ∧
    (∀ n : Node, ¬ (n.node_type = NodeType.success ∨ n.node_type = NodeType.fail) →
      p n.name = some Status.SUCCESS →
      lookupStep (execute_from_graph n st).steps n.name
        = some (mock_step_log (create_step_log n))) ∧
    (∀ (g : Graph) (fuel : Nat) (current : String) (prevName : Option String)
        (st2 : RunState), st2.prev = none →
      (execute_graph_loop g fuel current prevName st2).prev = none) := by
  refine ⟨?_, ?_, ?_, ?_, ?_⟩
  · intro name sl hs
    exact is_eligible_for_rerun_success st p name sl hprev hs
  · intro name sl s hs hne
    exact is_eligible_for_rerun_divergent st p name sl s hprev hs hne
  · intro st2 h2 name sl
    exact is_eligible_for_rerun_none st2 h2 name sl
  · intro n hterm hsucc
    unfold execute_from_graph
    rw [if_neg hterm]
    rw [is_eligible_for_rerun_success st p n.name (create_step_log n) hprev hsucc]
    have hif : ∀ (st2 : RunState) (a b : RunState),
        (if ((false, st2) : Bool × RunState).1 = false then a else b) = a :=
      fun _ _ _ => rfl
    rw [hif]
    simp only []
    rw [setStep_setStep st.steps (skip_step_log (create_step_log n))
      (mock_step_log (create_step_log n)) rfl]
    exact lookupStep_setStep_self st.steps (mock_step_log (create_step_log n))
  · intro g fuel current prevName st2 h2
    exact execute_graph_loop_preserves g (fun s => s.prev = none)
      (fun n s hs => execute_from_graph_prev_none n s hs) fuel current prevName
      st2 h2

/-- Witness for C4: a skipped node under an all-SUCCESS previous run, and
the mocked SUCCESS step log it materializes. -/
theorem is_eligible_for_rerun_spec_witness :
    is_eligible_for_rerun c5state "t1" c1steplog
      = (false, { c5state with steps := setStep c5state.steps (skip_step_log c1steplog) })
    ∧ lookupStep (execute_from_graph c5task c5state).steps "t1"
      = some (mock_step_log (create_step_log c5task)) :=
  have h := is_eligible_for_rerun_spec c5state (fun _ => some Status.SUCCESS) rfl
  ⟨h.1 "t1" c1steplog rfl, h.2.2.2.1 c5task (by decide) rfl⟩

/-- C5 counterexample: in a re-run against an all-SUCCESS previous run of
the linear dag `t1 -> succ`, the success node bypasses the re-run gate and
is executed for real, so its step log has mock=false and one attempt —
refuting "every Step Log has mock=true and an empty attempts sequence". -/
theorem rerun_terminal_step_counterexample :
    ¬ ∀ q ∈ (execute_graph c5graph 3 c5state).steps,
        q.2.mock = true ∧ q.2.attempts = [] := by
  decide

/-- C5 (amended): in a re-run whose attached previous run log reports
SUCCESS for every step, every step log of a non-terminal node stored by
the traversal is a mocked skip (mock=true) with no attempt logs; terminal
(success/fail) nodes bypass the gate and are executed afresh. -/
theorem rerun_all_success_mocked_spec (g : Graph) (p : String → Option Status)
    (fuel : Nat) (current : String) (prevName : Option String) (st : RunState)
    (hp : ∀ nm, p nm = some Status.SUCCESS)
    (hprev : st.prev = some p) (hinv : mocked_invariant st.steps) :
    mocked_invariant (execute_graph_loop g fuel current prevName st).steps :=
  (execute_graph_loop_preserves g
    (fun s => s.prev = some p ∧ mocked_invariant s.steps)
    (fun n s hs => execute_from_graph_all_success n s p hp hs.1 hs.2)
    fuel current prevName st ⟨hprev, hinv⟩).2

/-- Witness for C5 (amended) on the concrete linear dag. -/
theorem rerun_all_success_mocked_spec_witness :
    mocked_invariant (execute_graph_loop c5graph 3 "t1" none c5state).steps :=
  rerun_all_success_mocked_spec c5graph (fun _ => some Status.SUCCESS) 3 "t1"
    none c5state (fun _ => rfl) rfl (fun q hq => absurd hq (List.not_mem_nil q))

end Magnus
